import Mathlib

/-!
Verification of the email-chip input widget (`src/components/EmailInputs.tsx`).

The widget keeps an ordered list of chips `{key, email, valid}` and mutates it
through two operations: `updateChips` (commit the text-entry buffer) and
`deleteChip`.  A `useEffect` recomputes the input-disable and limit-message
flags from the chip count.  We embed those operations as pure functions on an
explicit `WidgetState`, with JavaScript strings modelled as Lean `String`
(a wrapper around `List Char`), `String.prototype.trim` and
`String.prototype.toLowerCase` modelled by `trimList` / `lowerList`.
-/

namespace EmailWidget

/-- Model of `String.prototype.toLowerCase` on the underlying character list
(the source only ever feeds it basic-latin email text, for which per-character
lowering is the JS behaviour). -/
def lowerList (l : List Char) : List Char :=
  l.map Char.toLower

/-- Model of `String.prototype.trim` on the underlying character list:
drop leading whitespace, then drop trailing whitespace. -/
def trimList (l : List Char) : List Char :=
  (((l.dropWhile Char.isWhitespace).reverse).dropWhile Char.isWhitespace).reverse

/-- JS `s.trim()`. -/
def jsTrim (s : String) : String :=
  ⟨trimList s.data⟩

/-- JS `s.toLowerCase()`. -/
def jsToLowerCase (s : String) : String :=
  ⟨lowerList s.data⟩

/-- The normalization applied by `updateChips`:
`inputRef.current.value.trim().toLowerCase()`. -/
def normalizeValue (raw : String) : String :=
  jsToLowerCase (jsTrim raw)

/-- `type EmailChip = { key: number } & EmailData`. -/
structure EmailChip where
  key : Int
  email : String
  valid : Bool
deriving DecidableEq, Repr

/-- `type EmailData = { email: string; valid: boolean }`. -/
structure EmailData where
  email : String
  valid : Bool
deriving DecidableEq, Repr

/-- `emailChipsToEmailData`: strip the internal `key`, keep `{email, valid}`. -/
def emailChipsToEmailData (chips : List EmailChip) : List EmailData :=
  chips.map fun chip => { email := chip.email, valid := chip.valid }

/-- The configuration surface of the component that the chip logic reads
(`limit`, `required`, `validateEmail`, `initialEmails`).  `limit` is a JS
number-or-undefined, modelled as `Option Int`. -/
structure Config where
  limit : Option Int
  required : Bool
  validateEmail : Option (String → Bool)
  initialEmails : Option (List String)

/-- The mutable state of the component: the chip list plus the three
flag states (`disableInput`, `requiredValidation`, `limitValidation`). -/
structure WidgetState where
  chips : List EmailChip
  disableInput : Bool
  requiredValidation : Bool
  limitValidation : Bool
deriving DecidableEq, Repr

/-- The `useState` initializer:
`initialEmails?.map((email, i) => ({ email, valid: true, key: now - i })) ?? []`. -/
def initChips (now : Int) (initialEmails : Option (List String)) : List EmailChip :=
  match initialEmails with
  | some emails => emails.enum.map fun p => { email := p.2, valid := true, key := now - p.1 }
  | none => []

/-- The state right after mount: seeded chips, all flags false. -/
def initialState (now : Int) (cfg : Config) : WidgetState :=
  { chips := initChips now cfg.initialEmails
    disableInput := false
    requiredValidation := false
    limitValidation := false }

/-- `const disable = !!limit && limit <= chips.length` (JS truthiness:
`!!limit` is false for `undefined` and for `0`). -/
def computeDisable (limit : Option Int) (count : Nat) : Bool :=
  match limit with
  | none => false
  | some n => n != 0 && decide (n ≤ (count : Int))

/-- The `useEffect` reacting to `[chips.length, limit]`:
`setDisableInput(disable); setLimitValidation(disable)`. -/
def recomputeLimitFlags (limit : Option Int) (s : WidgetState) : WidgetState :=
  { s with disableInput := computeDisable limit s.chips.length
           limitValidation := computeDisable limit s.chips.length }

/-- `isOnlyOneValidChip`: `chips.filter((chip) => chip.valid).length <= 1`. -/
def isOnlyOneValidChip (chips : List EmailChip) : Bool :=
  decide ((chips.filter fun chip => chip.valid).length ≤ 1)

/-- Result of a delete action: the new state, and the payload passed to
`onChipChange` when the callback was invoked (`none` = not invoked). -/
structure StepResult where
  state : WidgetState
  callback : Option (List EmailData)
deriving DecidableEq, Repr

/-- `deleteChip(removedChip)`.  Refuses (and sets `requiredValidation`) when
`required && removedChip.valid && isOnlyOneValidChip()`; otherwise filters the
list by key inequality and fires `onChipChange`. -/
def deleteChip (cfg : Config) (s : WidgetState) (removedChip : Option EmailChip) : StepResult :=
  match removedChip with
  | none => { state := s, callback := none }
  | some removedChip =>
    if cfg.required && removedChip.valid && isOnlyOneValidChip s.chips then
      { state := { s with requiredValidation := true }, callback := none }
    else
      let updatedChips := s.chips.filter fun chip => chip.key != removedChip.key
      { state := { s with chips := updatedChips }
        callback := some (emailChipsToEmailData updatedChips) }

/-- Result of a commit action: state, callback payload, and the text-entry
buffer (`inputRef.current.value`) after the action. -/
structure CommitResult where
  state : WidgetState
  callback : Option (List EmailData)
  buffer : String
deriving DecidableEq, Repr

/-- `validateEmail !== undefined ? validateEmail(value) : true`. -/
def runValidate (validateEmail : Option (String → Bool)) (value : String) : Bool :=
  match validateEmail with
  | some f => f value
  | none => true

/-- `updateChips()`: normalize the buffer, no-op on empty, silently drop
duplicates (clearing the buffer), otherwise validate, append the chip,
update `requiredValidation`, fire `onChipChange`, clear the buffer.
`raw` is the current text-entry buffer, `now` is `Date.now()`. -/
def updateChips (cfg : Config) (now : Int) (s : WidgetState) (raw : String) : CommitResult :=
  let value := normalizeValue raw
  if value = "" then
    { state := s, callback := none, buffer := raw }
  else if s.chips.any fun chip => chip.email == value then
    { state := s, callback := none, buffer := "" }
  else
    let valid := runValidate cfg.validateEmail value
    let newChip : EmailChip := { email := value, valid := valid, key := now }
    let updatedChips := s.chips ++ [newChip]
    let newRequiredValidation :=
      if cfg.required && !valid then
        if (s.chips.filter fun chip => chip.valid).length = 0 then true
        else s.requiredValidation
      else false
    { state := { s with chips := updatedChips, requiredValidation := newRequiredValidation }
      callback := some (emailChipsToEmailData updatedChips)
      buffer := "" }

/-- The `Backspace` branch of `handleKeyDown`:
`if (!inputRef.current?.value && chips.length) deleteChip(chips[chips.length - 1])`. -/
def handleKeyDownBackspace (cfg : Config) (s : WidgetState) (buffer : String) : StepResult :=
  if buffer = "" && s.chips.length != 0 then
    deleteChip cfg s s.chips.getLast?
  else
    { state := s, callback := none }

/-- The states the widget can reach: the mounted initial state, followed by
any sequence of commits and deletions, with the limit-flag effect re-run
after every render. -/
inductive Reachable (cfg : Config) : WidgetState → Prop where
  | init (now : Int) :
      Reachable cfg (recomputeLimitFlags cfg.limit (initialState now cfg))
  | commit (now : Int) (raw : String) {s : WidgetState} :
      Reachable cfg s →
      Reachable cfg (recomputeLimitFlags cfg.limit (updateChips cfg now s raw).state)
  | delete (target : Option EmailChip) {s : WidgetState} :
      Reachable cfg s →
      Reachable cfg (recomputeLimitFlags cfg.limit (deleteChip cfg s target).state)

/-- No two chips share the same email compared case-insensitively after
trimming whitespace (the comparison the spec's uniqueness invariant uses). -/
def UniqueNormalized (chips : List EmailChip) : Prop :=
  chips.Pairwise fun a b => normalizeValue a.email ≠ normalizeValue b.email

/-- Auxiliary invariant: every chip email is a fixed point of normalization,
and chip emails are pairwise distinct as plain strings. -/
def GoodChips (chips : List EmailChip) : Prop :=
  (∀ c ∈ chips, normalizeValue c.email = c.email) ∧
  chips.Pairwise fun a b => a.email ≠ b.email

/-- Seed-list discipline under which the uniqueness invariant holds: every
initial email is already normalized and the list has no duplicates. -/
def SeedOK (cfg : Config) : Prop :=
  ∀ emails, cfg.initialEmails = some emails →
    (∀ e ∈ emails, normalizeValue e = e) ∧ emails.Pairwise (· ≠ ·)

end EmailWidget

namespace EmailWidget

/-! ### Normalization is idempotent -/

theorem lower_range_aux : ∀ n, n < 91 → 65 ≤ n →
    (Char.ofNat (n + 32)).isWhitespace = false ∧
    Char.toLower (Char.ofNat (n + 32)) = Char.ofNat (n + 32) := by
  decide

theorem toLower_isWhitespace (c : Char) :
    (Char.toLower c).isWhitespace = c.isWhitespace := by
  unfold Char.toLower
  by_cases h : Char.toNat c ≥ 65 ∧ Char.toNat c ≤ 90
  · rw [if_pos h, (lower_range_aux c.toNat (by omega) (by omega)).1]
    have h1 : c ≠ ' ' := by intro he; subst he; exact absurd h (by decide)
    have h2 : c ≠ '\t' := by intro he; subst he; exact absurd h (by decide)
    have h3 : c ≠ '\r' := by intro he; subst he; exact absurd h (by decide)
    have h4 : c ≠ '\n' := by intro he; subst he; exact absurd h (by decide)
    simp [Char.isWhitespace, h1, h2, h3, h4]
  · rw [if_neg h]

theorem toLower_toLower (c : Char) :
    Char.toLower (Char.toLower c) = Char.toLower c := by
  by_cases h : Char.toNat c ≥ 65 ∧ Char.toNat c ≤ 90
  · have he : c.toLower = Char.ofNat (c.toNat + 32) := by
      unfold Char.toLower; rw [if_pos h]
    rw [he]
    exact (lower_range_aux c.toNat (by omega) (by omega)).2
  · have he : c.toLower = c := by
      unfold Char.toLower; rw [if_neg h]
    rw [he, he]

theorem lowerList_dropWhile (l : List Char) :
    (lowerList l).dropWhile Char.isWhitespace =
      lowerList (l.dropWhile Char.isWhitespace) := by
  unfold lowerList
  rw [List.dropWhile_map]
  rw [show (Char.isWhitespace ∘ Char.toLower) = Char.isWhitespace from
    funext toLower_isWhitespace]

theorem lowerList_reverse (l : List Char) :
    (lowerList l).reverse = lowerList l.reverse :=
  (List.map_reverse Char.toLower l).symm

theorem lowerList_lowerList (l : List Char) :
    lowerList (lowerList l) = lowerList l := by
  unfold lowerList
  rw [List.map_map]
  exact List.map_congr_left fun a _ => toLower_toLower a

theorem trimList_lowerList (l : List Char) :
    trimList (lowerList l) = lowerList (trimList l) := by
  unfold trimList
  rw [lowerList_dropWhile, lowerList_reverse, lowerList_dropWhile, lowerList_reverse]

theorem dropWhile_eq_self_aux {α : Type} (p : α → Bool) (l : List α)
    (h : ∀ c, l.head? = some c → p c = false) : l.dropWhile p = l := by
  cases l with
  | nil => rfl
  | cons a t => simp [List.dropWhile, h a rfl]

theorem trimList_dropWhile (l : List Char) :
    (trimList l).dropWhile Char.isWhitespace = trimList l := by
  apply dropWhile_eq_self_aux
  intro c hc
  have hsuf : ((l.dropWhile Char.isWhitespace).reverse.dropWhile Char.isWhitespace) <:+
      (l.dropWhile Char.isWhitespace).reverse :=
    List.dropWhile_suffix Char.isWhitespace
  obtain ⟨t, ht⟩ := hsuf
  have ha : l.dropWhile Char.isWhitespace =
      ((l.dropWhile Char.isWhitespace).reverse.dropWhile Char.isWhitespace).reverse
        ++ t.reverse := by
    have h2 := congrArg List.reverse ht
    simpa using h2.symm
  cases hrev : ((l.dropWhile Char.isWhitespace).reverse.dropWhile Char.isWhitespace).reverse with
  | nil =>
    rw [show trimList l =
        ((l.dropWhile Char.isWhitespace).reverse.dropWhile Char.isWhitespace).reverse from rfl,
      hrev] at hc
    cases hc
  | cons x xs =>
    have hx : x = c := by
      rw [show trimList l =
          ((l.dropWhile Char.isWhitespace).reverse.dropWhile Char.isWhitespace).reverse from rfl,
        hrev] at hc
      exact Option.some_injective _ hc
    have hha : (l.dropWhile Char.isWhitespace).head? = some c := by
      rw [ha, hrev, hx]
      rfl
    have hdw := List.head?_dropWhile_not Char.isWhitespace l
    rw [hha] at hdw
    exact hdw

theorem trimList_trimList (l : List Char) :
    trimList (trimList l) = trimList l := by
  conv_lhs => rw [trimList]
  rw [trimList_dropWhile]
  have hrr : (trimList l).reverse =
      ((l.dropWhile Char.isWhitespace).reverse).dropWhile Char.isWhitespace := by
    rw [show trimList l =
        ((l.dropWhile Char.isWhitespace).reverse.dropWhile Char.isWhitespace).reverse from rfl]
    exact List.reverse_reverse _
  rw [hrr, List.dropWhile_idempotent]
  rfl

theorem normalizeValue_idem (s : String) :
    normalizeValue (normalizeValue s) = normalizeValue s := by
  show String.mk (lowerList (trimList (lowerList (trimList s.data)))) =
    String.mk (lowerList (trimList s.data))
  rw [trimList_lowerList, trimList_trimList, lowerList_lowerList]

/-! ### Claim C1 -/

theorem deleteChip_refused_aux (cfg : Config) (s : WidgetState) (c : EmailChip)
    (hreq : cfg.required = true)
    (hvalid : c.valid = true)
    (honly : s.chips.filter (fun chip => chip.valid) = [c]) :
    (deleteChip cfg s (some c)).state.chips = s.chips ∧
    (deleteChip cfg s (some c)).callback = none ∧
    (deleteChip cfg s (some c)).state.requiredValidation = true := by
  have hone : isOnlyOneValidChip s.chips = true := by
    unfold isOnlyOneValidChip
    rw [honly]
    simp
  simp [deleteChip, hreq, hvalid, hone]

/-- Claim C1: when `required` is active, the chip targeted for deletion is
valid, and it is the only valid chip in the collection, `deleteChip` refuses
the deletion: the chip list is unchanged, the change callback is not invoked,
and the required-violation flag is set instead. -/
theorem c1_delete_refused_when_last_valid (cfg : Config) (s : WidgetState) (c : EmailChip)
    (hreq : cfg.required = true)
    (hvalid : c.valid = true)
    (honly : s.chips.filter (fun chip => chip.valid) = [c]) :
    (deleteChip cfg s (some c)).state.chips = s.chips ∧
    (deleteChip cfg s (some c)).callback = none ∧
    (deleteChip cfg s (some c)).state.requiredValidation = true :=
  deleteChip_refused_aux cfg s c hreq hvalid honly

theorem c1_delete_refused_when_last_valid_witness :
    (deleteChip { limit := none, required := true, validateEmail := none, initialEmails := none }
        { chips := [{ key := 1, email := "a@x.com", valid := true }]
          disableInput := false, requiredValidation := false, limitValidation := false }
        (some { key := 1, email := "a@x.com", valid := true })).state.chips
      = [{ key := 1, email := "a@x.com", valid := true }] ∧
    (deleteChip { limit := none, required := true, validateEmail := none, initialEmails := none }
        { chips := [{ key := 1, email := "a@x.com", valid := true }]
          disableInput := false, requiredValidation := false, limitValidation := false }
        (some { key := 1, email := "a@x.com", valid := true })).callback = none ∧
    (deleteChip { limit := none, required := true, validateEmail := none, initialEmails := none }
        { chips := [{ key := 1, email := "a@x.com", valid := true }]
          disableInput := false, requiredValidation := false, limitValidation := false }
        (some { key := 1, email := "a@x.com", valid := true })).state.requiredValidation
      = true :=
  c1_delete_refused_when_last_valid _ _ _ rfl rfl (by decide)

/-! ### Claim C5 -/

/-- Claim C5: after the limit effect runs, the text entry is disabled iff a
(positive, per the spec) `limit` is configured and the chip count is at least
that limit; with no limit configured entry is never disabled; and the
limit-message flag always equals the disable flag. -/
theorem c5_disable_iff_limit_reached (limit : Option Int) (s : WidgetState) :
    (∀ n, limit = some n → 0 < n →
      ((recomputeLimitFlags limit s).disableInput = true ↔ n ≤ (s.chips.length : Int))) ∧
    (limit = none → (recomputeLimitFlags limit s).disableInput = false) ∧
    (recomputeLimitFlags limit s).limitValidation = (recomputeLimitFlags limit s).disableInput := by
  refine ⟨?_, ?_, rfl⟩
  · intro n hn hpos
    subst hn
    have hnz : n ≠ 0 := by omega
    simp [recomputeLimitFlags, computeDisable, hnz]
  · intro hn
    subst hn
    rfl

theorem c5_disable_iff_limit_reached_witness :
    ((recomputeLimitFlags (some 2)
        { chips := [{ key := 1, email := "a@x.com", valid := true },
                    { key := 2, email := "b@x.com", valid := true }]
          disableInput := false, requiredValidation := false, limitValidation := false
        }).disableInput = true) ∧
    ((recomputeLimitFlags (some 2)
        { chips := [{ key := 1, email := "a@x.com", valid := true },
                    { key := 2, email := "b@x.com", valid := true }]
          disableInput := false, requiredValidation := false, limitValidation := false
        }).limitValidation =
      (recomputeLimitFlags (some 2)
        { chips := [{ key := 1, email := "a@x.com", valid := true },
                    { key := 2, email := "b@x.com", valid := true }]
          disableInput := false, requiredValidation := false, limitValidation := false
        }).disableInput) := by
  have h := c5_disable_iff_limit_reached (some 2)
    { chips := [{ key := 1, email := "a@x.com", valid := true },
                { key := 2, email := "b@x.com", valid := true }]
      disableInput := false, requiredValidation := false, limitValidation := false }
  exact ⟨(h.1 2 rfl (by decide)).mpr (by decide), h.2.2⟩

/-! ### Claim C7 -/

theorem normalizeValue_empty_iff (raw : String) :
    normalizeValue raw = "" ↔ jsTrim raw = "" := by
  constructor
  · intro h
    have hd : lowerList (trimList raw.data) = ([] : List Char) := congrArg String.data h
    have h2 : trimList raw.data = [] := List.map_eq_nil_iff.mp hd
    show String.mk (trimList raw.data) = ""
    rw [h2]
  · intro h
    show jsToLowerCase (jsTrim raw) = ""
    rw [h]
    rfl

theorem any_email_eq_false (chips : List EmailChip) (v : String)
    (h : ∀ c ∈ chips, c.email ≠ v) :
    (chips.any fun chip => chip.email == v) = false := by
  rw [List.any_eq_false]
  intro c hc
  simpa using h c hc

/-- Claim C7: `updateChips` normalizes the raw input by trimming then
lower-casing, no-ops on input that is empty after trimming, evaluates the
configured validator on the normalized value (always valid when no validator
is supplied), and appends the new chip whatever the validator returns. -/
theorem c7_commit_normalizes_and_appends (cfg : Config) (now : Int) (s : WidgetState)
    (raw : String) :
    (jsTrim raw = "" →
      updateChips cfg now s raw = { state := s, callback := none, buffer := raw }) ∧
    (jsTrim raw ≠ "" → (∀ c ∈ s.chips, c.email ≠ normalizeValue raw) →
      (updateChips cfg now s raw).state.chips =
        s.chips ++ [{ key := now, email := jsToLowerCase (jsTrim raw),
                      valid := runValidate cfg.validateEmail (jsToLowerCase (jsTrim raw)) }]) ∧
    (cfg.validateEmail = none →
      runValidate cfg.validateEmail (normalizeValue raw) = true) := by
    refine ⟨?_, ?_, ?_⟩
    · intro h
      have hv : normalizeValue raw = "" := (normalizeValue_empty_iff raw).mpr h
      simp [updateChips, hv]
    · intro hne hnodup
      have hvne : normalizeValue raw ≠ "" := fun hh =>
        hne ((normalizeValue_empty_iff raw).mp hh)
      have hany := any_email_eq_false s.chips (normalizeValue raw) hnodup
      simp [updateChips, hvne, hany]
      exact ⟨rfl, rfl⟩
    · intro h
      rw [h]
      rfl

theorem c7_commit_normalizes_and_appends_witness :
    jsTrim " A@X.com " ≠ "" ∧
    (updateChips { limit := none, required := false, validateEmail := none, initialEmails := none }
        5
        { chips := [], disableInput := false, requiredValidation := false, limitValidation := false }
        " A@X.com ").state.chips =
      [] ++ [{ key := 5, email := jsToLowerCase (jsTrim " A@X.com "),
               valid := runValidate none (jsToLowerCase (jsTrim " A@X.com ")) }] :=
  ⟨by decide,
   (c7_commit_normalizes_and_appends
      { limit := none, required := false, validateEmail := none, initialEmails := none } 5
      { chips := [], disableInput := false, requiredValidation := false, limitValidation := false }
      " A@X.com ").2.1 (by decide) (by decide)⟩

/-! ### Claim C10 -/

/-- Claim C10: a permitted `deleteChip` removes every chip whose key equals
the targeted chip's key (a list filter on key inequality); in particular,
when two chips share a key, one deletion removes both. -/
theorem c10_delete_filters_by_key (cfg : Config) (s : WidgetState) (c : EmailChip) :
    ((cfg.required && c.valid && isOnlyOneValidChip s.chips) = false →
      (deleteChip cfg s (some c)).state.chips =
        s.chips.filter fun chip => chip.key != c.key) ∧
    (∀ (k : Int) (e1 e2 : String) (b1 b2 : Bool),
      cfg.required = false →
      (deleteChip cfg
          { chips := [{ key := k, email := e1, valid := b1 },
                      { key := k, email := e2, valid := b2 }]
            disableInput := s.disableInput
            requiredValidation := s.requiredValidation
            limitValidation := s.limitValidation }
          (some { key := k, email := e1, valid := b1 })).state.chips = []) := by
  constructor
  · intro h
    simp only [deleteChip, h]
    simp
  · intro k e1 e2 b1 b2 hreq
    simp [deleteChip, hreq]

theorem c10_delete_filters_by_key_witness :
    (deleteChip { limit := none, required := false, validateEmail := none, initialEmails := none }
        { chips := [{ key := 7, email := "a@x.com", valid := true },
                    { key := 7, email := "b@x.com", valid := true }]
          disableInput := false, requiredValidation := false, limitValidation := false }
        (some { key := 7, email := "a@x.com", valid := true })).state.chips = [] :=
  (c10_delete_filters_by_key
      { limit := none, required := false, validateEmail := none, initialEmails := none }
      { chips := [{ key := 7, email := "a@x.com", valid := true },
                  { key := 7, email := "b@x.com", valid := true }]
        disableInput := false, requiredValidation := false, limitValidation := false }
      { key := 7, email := "a@x.com", valid := true }).2 7 "a@x.com" "b@x.com" true true rfl

/-! ### Claim C6 -/

/-- Claim C6: every commit or delete that changes the chip collection invokes
the change callback with the full resulting chip list in order, each chip
reduced to its `{email, valid}` pair (the internal key is not in the payload). -/
theorem c6_callback_full_list (cfg : Config) (now : Int) (s : WidgetState) (raw : String)
    (target : Option EmailChip) :
    ((updateChips cfg now s raw).state.chips ≠ s.chips →
      (updateChips cfg now s raw).callback =
        some ((updateChips cfg now s raw).state.chips.map
          fun chip => { email := chip.email, valid := chip.valid })) ∧
    ((deleteChip cfg s target).state.chips ≠ s.chips →
      (deleteChip cfg s target).callback =
        some ((deleteChip cfg s target).state.chips.map
          fun chip => { email := chip.email, valid := chip.valid })) := by
  constructor
  · intro h
    by_cases h1 : normalizeValue raw = ""
    · simp [updateChips, h1] at h
    · by_cases h2 : (s.chips.any fun chip => chip.email == normalizeValue raw) = true
      · simp [updateChips, h1, h2] at h
      · simp only [Bool.not_eq_true] at h2
        simp [updateChips, h1, h2, emailChipsToEmailData]
  · intro h
    match target with
    | none => simp [deleteChip] at h
    | some c =>
      by_cases hcond : (cfg.required && c.valid && isOnlyOneValidChip s.chips) = true
      · simp [deleteChip, hcond] at h
      · simp only [Bool.not_eq_true] at hcond
        simp [deleteChip, hcond, emailChipsToEmailData]

theorem c6_callback_full_list_witness :
    (updateChips { limit := none, required := false, validateEmail := none, initialEmails := none }
        5
        { chips := [], disableInput := false, requiredValidation := false, limitValidation := false }
        "a@x.com").callback =
      some ((updateChips
          { limit := none, required := false, validateEmail := none, initialEmails := none } 5
          { chips := [], disableInput := false, requiredValidation := false, limitValidation := false }
          "a@x.com").state.chips.map
        fun chip => { email := chip.email, valid := chip.valid }) :=
  (c6_callback_full_list
      { limit := none, required := false, validateEmail := none, initialEmails := none } 5
      { chips := [], disableInput := false, requiredValidation := false, limitValidation := false }
      "a@x.com" none).1 (by decide)

/-! ### Claim C9 -/

/-- Claim C9: the commit operation never consults the configured limit — with
a non-empty, non-duplicate normalized input it appends a chip even when the
chip count already meets or exceeds `limit`, the whole commit result is
unchanged by replacing the limit, and `initChips` seeds one chip per entry of
`initialEmails` whatever the limit. -/
theorem c9_commit_ignores_limit (cfg : Config) (now : Int) (s : WidgetState) (raw : String) :
    (∀ n : Int, cfg.limit = some n → n ≤ (s.chips.length : Int) →
      normalizeValue raw ≠ "" → (∀ c ∈ s.chips, c.email ≠ normalizeValue raw) →
      (updateChips cfg now s raw).state.chips.length = s.chips.length + 1) ∧
    (∀ lim1 lim2 : Option Int,
      updateChips { cfg with limit := lim1 } now s raw =
        updateChips { cfg with limit := lim2 } now s raw) ∧
    (∀ emails : List String, (initChips now (some emails)).length = emails.length) := by
  refine ⟨?_, fun lim1 lim2 => rfl, fun emails => by simp [initChips]⟩
  intro n hlim hcount hne hnodup
  have hany := any_email_eq_false s.chips (normalizeValue raw) hnodup
  simp [updateChips, hne, hany]

theorem c9_commit_ignores_limit_witness :
    (updateChips { limit := some 1, required := false, validateEmail := none, initialEmails := none }
        9
        { chips := [{ key := 1, email := "a@x.com", valid := true }]
          disableInput := true, requiredValidation := false, limitValidation := true }
        "b@x.com").state.chips.length = 1 + 1 :=
  (c9_commit_ignores_limit
      { limit := some 1, required := false, validateEmail := none, initialEmails := none } 9
      { chips := [{ key := 1, email := "a@x.com", valid := true }]
        disableInput := true, requiredValidation := false, limitValidation := true }
      "b@x.com").1 1 rfl (by decide) (by decide) (by decide)

/-! ### Claim C8 -/

/-- Claim C8: with a non-empty chip list, Backspace on an empty text-entry
buffer performs `deleteChip` on the last chip of the sequence, and that
deletion is refused (with the required flag set, the list unchanged and no
callback) exactly under the same required-chip protection as an explicit
deletion. -/
theorem c8_backspace_deletes_last (cfg : Config) (s : WidgetState) (h : s.chips ≠ []) :
    handleKeyDownBackspace cfg s "" = deleteChip cfg s (some (s.chips.getLast h)) ∧
    (cfg.required = true → s.chips.filter (fun chip => chip.valid) = [s.chips.getLast h] →
      (handleKeyDownBackspace cfg s "").state.chips = s.chips ∧
      (handleKeyDownBackspace cfg s "").state.requiredValidation = true ∧
      (handleKeyDownBackspace cfg s "").callback = none) := by
  have hlen : (s.chips.length != 0) = true := by
    simp [List.length_eq_zero, h]
  have hmain : handleKeyDownBackspace cfg s "" = deleteChip cfg s (some (s.chips.getLast h)) := by
    unfold handleKeyDownBackspace
    rw [List.getLast?_eq_getLast s.chips h]
    simp [hlen]
  refine ⟨hmain, fun hreq honly => ?_⟩
  rw [hmain]
  have hres := deleteChip_refused_aux cfg s (s.chips.getLast h) hreq ?_ honly
  · exact ⟨hres.1, hres.2.2, hres.2.1⟩
  · have hmem : s.chips.getLast h ∈ s.chips.filter fun chip => chip.valid := by
      rw [honly]
      exact List.mem_singleton.mpr rfl
    exact (List.mem_filter.mp hmem).2

theorem c8_backspace_deletes_last_witness :
    handleKeyDownBackspace
        { limit := none, required := true, validateEmail := none, initialEmails := none }
        { chips := [{ key := 1, email := "a@x.com", valid := true }]
          disableInput := false, requiredValidation := false, limitValidation := false }
        "" =
      deleteChip
        { limit := none, required := true, validateEmail := none, initialEmails := none }
        { chips := [{ key := 1, email := "a@x.com", valid := true }]
          disableInput := false, requiredValidation := false, limitValidation := false }
        (some ([{ key := 1, email := "a@x.com", valid := true }].getLast (by decide))) ∧
    (handleKeyDownBackspace
        { limit := none, required := true, validateEmail := none, initialEmails := none }
        { chips := [{ key := 1, email := "a@x.com", valid := true }]
          disableInput := false, requiredValidation := false, limitValidation := false }
        "").state.requiredValidation = true := by
  have hc := c8_backspace_deletes_last
    { limit := none, required := true, validateEmail := none, initialEmails := none }
    { chips := [{ key := 1, email := "a@x.com", valid := true }]
      disableInput := false, requiredValidation := false, limitValidation := false }
    (by decide)
  exact ⟨hc.1, (hc.2 rfl (by decide)).2.1⟩

/-! ### Claim C2 -/

/-- Claim C2, as stated, is false: when `required` is active, the committed
chip is invalid, and a valid chip already exists, the code leaves the
required-violation flag unchanged rather than clearing it.  Concretely, from
a state with one valid chip and the flag already raised, committing an
invalid entry keeps the flag raised. -/
theorem c2_required_flag_counterexample :
    ¬ (∀ (cfg : Config) (now : Int) (s : WidgetState) (raw : String),
        normalizeValue raw ≠ "" →
        (∀ c ∈ s.chips, c.email ≠ normalizeValue raw) →
        ((runValidate cfg.validateEmail (normalizeValue raw) = true ∨
            ∃ c ∈ s.chips, c.valid = true) →
          (updateChips cfg now s raw).state.requiredValidation = false) ∧
        (cfg.required = true ∧
            (∀ c ∈ (updateChips cfg now s raw).state.chips, c.valid = false) →
          (updateChips cfg now s raw).state.requiredValidation = true)) := by
  intro hclaim
  have h := (hclaim
      { limit := none, required := true, validateEmail := some fun _ => false
        initialEmails := none }
      2
      { chips := [{ key := 1, email := "a@x.com", valid := true }]
        disableInput := false, requiredValidation := true, limitValidation := false }
      "b@x.com"
      (by decide) (by decide)).1 (Or.inr (by decide))
  exact absurd h (by decide)

/-- Claim C2 (amended): for every committed entry, the required-violation
flag is cleared if the new chip is valid or `required` is inactive; it is
left unchanged (not cleared) if `required` is active, the new chip is
invalid, and a valid chip already exists; and it is set if `required` is
active and after the addition the only chips present are invalid. -/
theorem c2_required_flag_update_amended (cfg : Config) (now : Int) (s : WidgetState)
    (raw : String)
    (hne : normalizeValue raw ≠ "")
    (hnodup : ∀ c ∈ s.chips, c.email ≠ normalizeValue raw) :
    (runValidate cfg.validateEmail (normalizeValue raw) = true ∨ cfg.required = false →
      (updateChips cfg now s raw).state.requiredValidation = false) ∧
    (cfg.required = true → runValidate cfg.validateEmail (normalizeValue raw) = false →
      (∃ c ∈ s.chips, c.valid = true) →
      (updateChips cfg now s raw).state.requiredValidation = s.requiredValidation) ∧
    (cfg.required = true →
      (∀ c ∈ (updateChips cfg now s raw).state.chips, c.valid = false) →
      (updateChips cfg now s raw).state.requiredValidation = true) := by
  have hany := any_email_eq_false s.chips (normalizeValue raw) hnodup
  have hchips : (updateChips cfg now s raw).state.chips =
      s.chips ++ [{ key := now, email := normalizeValue raw,
                    valid := runValidate cfg.validateEmail (normalizeValue raw) }] := by
    simp [updateChips, hne, hany]
  refine ⟨?_, ?_, ?_⟩
  · rintro (hval | hreq)
    · simp [updateChips, hne, hany, hval]
    · simp [updateChips, hne, hany, hreq]
  · intro hreq hval hex
    have hlen : ¬((s.chips.filter fun chip => chip.valid).length = 0) := by
      intro h0
      rw [List.length_eq_zero] at h0
      obtain ⟨c, hc, hv⟩ := hex
      have hmem := List.mem_filter.mpr ⟨hc, hv⟩
      rw [h0] at hmem
      cases hmem
    simp [updateChips, hne, hany, hreq, hval, hlen]
  · intro hreq hall
    rw [hchips] at hall
    have hval : runValidate cfg.validateEmail (normalizeValue raw) = false :=
      hall _ (List.mem_append.mpr (Or.inr (List.mem_singleton.mpr rfl)))
    have hnov : (s.chips.filter fun chip => chip.valid).length = 0 := by
      rw [List.length_eq_zero, List.filter_eq_nil_iff]
      intro c hc
      simp [hall c (List.mem_append.mpr (Or.inl hc))]
    simp [updateChips, hne, hany, hreq, hval, hnov]

theorem c2_required_flag_update_amended_witness :
    (updateChips
        { limit := none, required := true, validateEmail := some fun _ => false
          initialEmails := none }
        3
        { chips := [], disableInput := false, requiredValidation := false
          limitValidation := false }
        "bad").state.requiredValidation = true :=
  (c2_required_flag_update_amended
      { limit := none, required := true, validateEmail := some fun _ => false
        initialEmails := none }
      3
      { chips := [], disableInput := false, requiredValidation := false
        limitValidation := false }
      "bad" (by decide) (by decide)).2.2 rfl (by decide)

/-! ### Claim C4 -/

/-- Claim C4, as stated, is false in one corner: when the normalized input is
empty (and an existing chip happens to carry the empty email, seeded via
`initialEmails`), the commit no-ops on the empty-input check before the
duplicate check, and the input buffer is left as-is rather than cleared. -/
theorem c4_duplicate_commit_counterexample :
    ¬ (∀ (cfg : Config) (now : Int) (s : WidgetState) (raw : String),
        (∃ c ∈ s.chips, c.email = normalizeValue raw) →
        (updateChips cfg now s raw).state = s ∧
        (updateChips cfg now s raw).buffer = "" ∧
        (updateChips cfg now s raw).callback = none) := by
  intro hclaim
  have h := (hclaim
      { limit := none, required := false, validateEmail := none, initialEmails := none }
      0
      { chips := [{ key := 0, email := "", valid := true }]
        disableInput := false, requiredValidation := false, limitValidation := false }
      " "
      (by decide)).2.1
  exact absurd h (by decide)

/-- Claim C4 (amended): committing a raw text whose non-empty normalized form
equals the email of some existing chip is a no-op: the state (chips, flags)
is unchanged, the input buffer is cleared, and no callback fires.  Moreover,
unconditionally, committing the same raw text twice yields no change in chip
count after the second commit. -/
theorem c4_duplicate_commit_amended (cfg : Config) (now : Int) (s : WidgetState)
    (raw : String) :
    ((∃ c ∈ s.chips, c.email = normalizeValue raw) → normalizeValue raw ≠ "" →
      (updateChips cfg now s raw).state = s ∧
      (updateChips cfg now s raw).buffer = "" ∧
      (updateChips cfg now s raw).callback = none) ∧
    (∀ now2 : Int,
      (updateChips cfg now2 (updateChips cfg now s raw).state raw).state.chips.length =
        (updateChips cfg now s raw).state.chips.length) := by
  constructor
  · intro hdup hne
    have hany : (s.chips.any fun chip => chip.email == normalizeValue raw) = true := by
      rw [List.any_eq_true]
      obtain ⟨c, hc, he⟩ := hdup
      exact ⟨c, hc, by simp [he]⟩
    simp [updateChips, hne, hany]
  · intro now2
    by_cases h1 : normalizeValue raw = ""
    · simp [updateChips, h1]
    · by_cases h2 : (s.chips.any fun chip => chip.email == normalizeValue raw) = true
      · simp [updateChips, h1, h2]
      · simp only [Bool.not_eq_true] at h2
        simp [updateChips, h1, h2]

theorem c4_duplicate_commit_amended_witness :
    (updateChips { limit := none, required := false, validateEmail := none, initialEmails := none }
        4
        { chips := [{ key := 1, email := "a@x.com", valid := true }]
          disableInput := false, requiredValidation := false, limitValidation := false }
        " A@X.com ").state =
      { chips := [{ key := 1, email := "a@x.com", valid := true }]
        disableInput := false, requiredValidation := false, limitValidation := false } ∧
    (updateChips { limit := none, required := false, validateEmail := none, initialEmails := none }
        4
        { chips := [{ key := 1, email := "a@x.com", valid := true }]
          disableInput := false, requiredValidation := false, limitValidation := false }
        " A@X.com ").buffer = "" ∧
    (updateChips { limit := none, required := false, validateEmail := none, initialEmails := none }
        4
        { chips := [{ key := 1, email := "a@x.com", valid := true }]
          disableInput := false, requiredValidation := false, limitValidation := false }
        " A@X.com ").callback = none :=
  (c4_duplicate_commit_amended
      { limit := none, required := false, validateEmail := none, initialEmails := none } 4
      { chips := [{ key := 1, email := "a@x.com", valid := true }]
        disableInput := false, requiredValidation := false, limitValidation := false }
      " A@X.com ").1 (by decide) (by decide)

/-! ### Claim C3 -/

/-- Claim C3, as stated, is false: `initialEmails` entries are seeded without
normalization or de-duplication, so initializing with a duplicated seed list
immediately yields two chips with the same (even identical) email. -/
theorem c3_unique_counterexample :
    ¬ (∀ (cfg : Config) (s : WidgetState), Reachable cfg s → UniqueNormalized s.chips) := by
  intro hclaim
  have h := hclaim
    { limit := none, required := false, validateEmail := none
      initialEmails := some ["a@x.com", "a@x.com"] }
    _ (Reachable.init 0)
  unfold UniqueNormalized at h
  exact absurd h (by decide)

theorem goodChips_unique {chips : List EmailChip} (h : GoodChips chips) :
    UniqueNormalized chips := by
  obtain ⟨hfix, hpair⟩ := h
  refine List.Pairwise.imp_of_mem ?_ hpair
  intro a b ha hb hne heq
  exact hne (by rw [← hfix a ha, ← hfix b hb, heq])

theorem goodChips_init (now : Int) (emails : List String)
    (hfix : ∀ e ∈ emails, normalizeValue e = e)
    (hdist : emails.Pairwise (· ≠ ·)) :
    GoodChips (initChips now (some emails)) := by
  have hmap : (initChips now (some emails)).map (fun c => c.email) = emails := by
    simp only [initChips, List.map_map]
    exact List.enum_map_snd emails
  constructor
  · intro c hc
    exact hfix c.email (hmap ▸ List.mem_map_of_mem (fun c => c.email) hc)
  · have hd : ((initChips now (some emails)).map (fun c => c.email)).Pairwise (· ≠ ·) := by
      rw [hmap]
      exact hdist
    exact List.pairwise_map.mp hd

theorem goodChips_commit (cfg : Config) (now : Int) (s : WidgetState) (raw : String)
    (h : GoodChips s.chips) :
    GoodChips (updateChips cfg now s raw).state.chips := by
  by_cases h1 : normalizeValue raw = ""
  · simpa [updateChips, h1] using h
  by_cases h2 : (s.chips.any fun chip => chip.email == normalizeValue raw) = true
  · simpa [updateChips, h1, h2] using h
  have h2' := h2
  simp only [Bool.not_eq_true] at h2'
  have hchips : (updateChips cfg now s raw).state.chips =
      s.chips ++ [{ key := now, email := normalizeValue raw,
                    valid := runValidate cfg.validateEmail (normalizeValue raw) }] := by
    simp [updateChips, h1, h2']
  rw [hchips]
  obtain ⟨hfix, hpair⟩ := h
  have hnodup : ∀ c ∈ s.chips, c.email ≠ normalizeValue raw := by
    intro c hc he
    exact h2 (List.any_eq_true.mpr ⟨c, hc, by simp [he]⟩)
  constructor
  · intro c hc
    rcases List.mem_append.mp hc with hl | hr
    · exact hfix c hl
    · rcases List.mem_singleton.mp hr with rfl
      exact normalizeValue_idem raw
  · rw [List.pairwise_append]
    refine ⟨hpair, List.pairwise_singleton _ _, ?_⟩
    intro a ha b hb
    rcases List.mem_singleton.mp hb with rfl
    exact hnodup a ha

theorem goodChips_delete (cfg : Config) (s : WidgetState) (target : Option EmailChip)
    (h : GoodChips s.chips) :
    GoodChips (deleteChip cfg s target).state.chips := by
  match target with
  | none => exact h
  | some c =>
    by_cases hcond : (cfg.required && c.valid && isOnlyOneValidChip s.chips) = true
    · simpa [deleteChip, hcond] using h
    · simp only [Bool.not_eq_true] at hcond
      have hchips : (deleteChip cfg s (some c)).state.chips =
          s.chips.filter fun chip => chip.key != c.key := by
        simp [deleteChip, hcond]
      rw [hchips]
      obtain ⟨hfix, hpair⟩ := h
      exact ⟨fun d hd => hfix d (List.mem_of_mem_filter hd),
             List.Pairwise.sublist (List.filter_sublist _) hpair⟩

theorem reachable_goodChips {cfg : Config} {s : WidgetState}
    (hseed : SeedOK cfg) (hr : Reachable cfg s) : GoodChips s.chips := by
  induction hr with
  | init now =>
    show GoodChips (initChips now cfg.initialEmails)
    match hm : cfg.initialEmails with
    | some emails =>
      obtain ⟨hfix, hdist⟩ := hseed emails hm
      exact goodChips_init now emails hfix hdist
    | none =>
      refine ⟨fun c hc => absurd hc ?_, ?_⟩ <;> simp [initChips]
  | commit now raw hr ih =>
    exact goodChips_commit cfg now _ raw ih
  | delete target hr ih =>
    exact goodChips_delete cfg _ target ih

/-- Claim C3 (amended): provided every entry of `initialEmails` is already in
normalized form (equal to its own trimmed lower-casing) and the entries are
pairwise distinct, every reachable state of the widget has no two chips
sharing the same email compared case-insensitively after trimming. -/
theorem c3_unique_normalized_amended (cfg : Config) (s : WidgetState)
    (hseed : SeedOK cfg) (hr : Reachable cfg s) : UniqueNormalized s.chips :=
  goodChips_unique (reachable_goodChips hseed hr)

theorem c3_unique_normalized_amended_witness :
    UniqueNormalized
      (recomputeLimitFlags
        (Config.mk none false none (some ["a@x.com", "b@x.com"])).limit
        (initialState 0 (Config.mk none false none (some ["a@x.com", "b@x.com"])))).chips :=
  c3_unique_normalized_amended
    (Config.mk none false none (some ["a@x.com", "b@x.com"])) _
    (fun emails heq => by cases heq; exact ⟨by decide, by decide⟩)
    (Reachable.init 0)

end EmailWidget
